/-
Verification of the signed-logarithmic scale (SignLog.ts).

The definitions below are a shallow embedding of the TypeScript source of
`src/scale/SignLog.ts` into exact real arithmetic: JavaScript `number`
values become `ℝ`, `Math.pow` becomes `Real.rpow`, `Math.sign` becomes
`Real.sign`, and the module-level helpers `mathLog` / `qwtLog` are
translated verbatim.  External collaborators (the generic linear scale and
the numeric helper module) are either taken as function parameters or
modelled from the specification, as indicated by their doc comments.
-/
import Mathlib

namespace SignLog

/-- Helper `mathLog` from SignLog.ts: returns `0` when the value is `0`,
otherwise `Math.log(|value|) / Math.log(base)`. -/
noncomputable def mathLog (base value : ℝ) : ℝ :=
  if value = 0 then value else Real.log |value| / Real.log base

/-- Helper `qwtLog` from SignLog.ts: a sign-preserving variant of `mathLog`
that maps `0` to `0` and a negative value to `-mathLog base (-value)`. -/
noncomputable def qwtLog (base value : ℝ) : ℝ :=
  if value = 0 then value
  else if value < 0 then -(mathLog base (-value))
  else mathLog base value

/-- Method `signedLogTransform` of `SignLogScale`: the forward transform.
Values in the open interval `(-10, 10)` are mapped linearly to `val / 10`;
all other values are mapped to `sign(val) * mathLog(base, |val|)`. -/
noncomputable def signedLogTransform (base val : ℝ) : ℝ :=
  if -10 < val ∧ val < 10 then val / 10
  else Real.sign val * mathLog base |val|

/-- Method `signedLogInvTransform` of `SignLogScale`: the inverse transform.
Values in `(-1, 1)` are mapped linearly to `val * 10`; all other values are
mapped to `sign(val) * base ^ |val|`. -/
noncomputable def signedLogInvTransform (base val : ℝ) : ℝ :=
  if -1 < val ∧ val < 1 then val * 10
  else Real.sign val * base ^ |val|

lemma mathLog_eq_logb (base value : ℝ) : mathLog base value = Real.logb base value := by
  unfold mathLog
  split
  · simp [*, Real.logb]
  · rw [Real.logb, Real.log_abs]

lemma qwtLog_of_pos (base : ℝ) {v : ℝ} (hv : 0 < v) :
    qwtLog base v = Real.logb base v := by
  unfold qwtLog
  rw [if_neg (ne_of_gt hv), if_neg (not_lt.mpr hv.le), mathLog_eq_logb]

lemma qwtLog_of_neg (base : ℝ) {v : ℝ} (hv : v < 0) :
    qwtLog base v = -Real.logb base (-v) := by
  unfold qwtLog
  rw [if_neg (ne_of_lt hv), if_pos hv, mathLog_eq_logb]

/-- On the linear segment the forward transform is division by ten. -/
lemma signedLogTransform_lin (base : ℝ) {v : ℝ} (h1 : -10 < v) (h2 : v < 10) :
    signedLogTransform base v = v / 10 := by
  unfold signedLogTransform
  exact if_pos ⟨h1, h2⟩

/-- On the positive logarithmic segment the forward transform is `logb`. -/
lemma signedLogTransform_ge (base : ℝ) {v : ℝ} (h : 10 ≤ v) :
    signedLogTransform base v = Real.logb base v := by
  unfold signedLogTransform
  rw [if_neg (by push_neg; intro _; exact h)]
  rw [Real.sign_of_pos (by linarith), mathLog_eq_logb, Real.logb_abs, one_mul]

/-- On the negative logarithmic segment the forward transform is `-logb` of
the negated value. -/
lemma signedLogTransform_le (base : ℝ) {v : ℝ} (h : v ≤ -10) :
    signedLogTransform base v = -Real.logb base (-v) := by
  unfold signedLogTransform
  rw [if_neg (by push_neg; intro h1; exact absurd h (by linarith))]
  rw [Real.sign_of_neg (by linarith), mathLog_eq_logb, Real.logb_abs, neg_one_mul,
    ← Real.logb_neg_eq_logb]

lemma one_le_logb_of_ten_le {v : ℝ} (h : 10 ≤ v) : 1 ≤ Real.logb 10 v := by
  rw [Real.le_logb_iff_rpow_le (by norm_num) (by linarith)]
  rw [Real.rpow_one]
  exact h

/-- C4: for every real `x` (exact-real semantics, default base 10),
`signedLogInvTransform (signedLogTransform x) = x`; in particular the
forward/inverse pair are mutual inverses on the linear segment `|x| < 10`
and on the logarithmic segment `|x| ≥ 10`. -/
theorem signedLog_round_trip (x : ℝ) :
    signedLogInvTransform 10 (signedLogTransform 10 x) = x := by
  by_cases hx : -10 < x ∧ x < 10
  · rw [signedLogTransform_lin 10 hx.1 hx.2]
    unfold signedLogInvTransform
    rw [if_pos (by constructor <;> [linarith [hx.1]; linarith [hx.2]])]
    ring
  · push_neg at hx
    rcases le_or_lt 10 x with hge | hlt
    · rw [signedLogTransform_ge 10 hge]
      have h1 : 1 ≤ Real.logb 10 x := one_le_logb_of_ten_le hge
      unfold signedLogInvTransform
      rw [if_neg (by push_neg; intro _; linarith)]
      rw [Real.sign_of_pos (by linarith), abs_of_pos (by linarith), one_mul]
      exact Real.rpow_logb (by norm_num) (by norm_num) (by linarith)
    · have hle : x ≤ -10 := by
        by_contra hcon
        push_neg at hcon
        linarith [hx hcon]
      rw [signedLogTransform_le 10 hle]
      have h1 : 1 ≤ Real.logb 10 (-x) := one_le_logb_of_ten_le (by linarith)
      unfold signedLogInvTransform
      rw [if_neg (by push_neg; intro h2; linarith)]
      rw [Real.sign_of_neg (by linarith), abs_of_neg (by linarith), neg_neg,
        Real.rpow_logb (by norm_num) (by norm_num) (by linarith)]
      ring

/-- C5: with the default base 10 (where the linear and logarithmic segments
meet continuously), the forward transform is strictly increasing over its
full domain. -/
theorem signedLogTransform_strictMono (x y : ℝ) (hxy : x < y) :
    signedLogTransform 10 x < signedLogTransform 10 y := by
  rcases le_or_lt 10 x with hx10 | hxlt
  · -- both on the positive logarithmic segment
    rw [signedLogTransform_ge 10 hx10, signedLogTransform_ge 10 (by linarith)]
    exact Real.logb_lt_logb (by norm_num) (by linarith) hxy
  · rcases le_or_lt y (-10) with hy10 | hygt
    · -- both on the negative logarithmic segment
      rw [signedLogTransform_le 10 (by linarith), signedLogTransform_le 10 hy10]
      have := Real.logb_lt_logb (b := 10) (by norm_num) (x := -y) (y := -x)
        (by linarith) (by linarith)
      linarith
    · rcases le_or_lt x (-10) with hxle | hxgt
      · -- x on the negative segment, y linear or positive
        rw [signedLogTransform_le 10 hxle]
        have h1 : 1 ≤ Real.logb 10 (-x) := one_le_logb_of_ten_le (by linarith)
        rcases lt_or_le y 10 with hylt | hyge
        · rw [signedLogTransform_lin 10 hygt hylt]
          linarith
        · rw [signedLogTransform_ge 10 hyge]
          have h2 : 1 ≤ Real.logb 10 y := one_le_logb_of_ten_le hyge
          linarith
      · -- x linear, y linear or positive
        rcases lt_or_le y 10 with hylt | hyge
        · rw [signedLogTransform_lin 10 hxgt hxlt, signedLogTransform_lin 10 (by linarith) hylt]
          linarith
        · rw [signedLogTransform_lin 10 hxgt hxlt, signedLogTransform_ge 10 hyge]
          have h2 : 1 ≤ Real.logb 10 y := one_le_logb_of_ten_le hyge
          linarith

/-- Witness for C5 at the concrete pair `0 < 1`. -/
theorem signedLogTransform_strictMono_witness :
    (0 : ℝ) < 1 ∧ signedLogTransform 10 0 < signedLogTransform 10 1 :=
  ⟨by norm_num, signedLogTransform_strictMono 0 1 (by norm_num)⟩

/-- Method `setExtent` of `SignLogScale`: both bounds are forward
transformed; when both transformed bounds lie strictly inside `(-1, 1)` a
secondary log reprojection replaces the start by `min(log start, log end)`
and the end by `max(log start, log end)` when the reassigned start times the
transformed end is nonnegative, and `0` otherwise.  The returned pair is
what is stored through `intervalScaleProto.setExtent`. -/
noncomputable def setExtentPair (base s e : ℝ) : ℝ × ℝ :=
  let s1 := signedLogTransform base s
  let e1 := signedLogTransform base e
  if s1 < 1 ∧ -1 < s1 ∧ e1 < 1 ∧ -1 < e1 then
    let lmin := mathLog base s1
    let lmax := mathLog base e1
    let s2 := min lmin lmax
    if 0 ≤ s2 * e1 then (s2, max lmin lmax) else (s2, 0)
  else (s1, e1)

/-- Body of method `unionExtent` of `SignLogScale` acting on the argument
array: the same transform-plus-reprojection as `setExtent`, written out
separately because the source repeats the code. -/
noncomputable def unionPair (base : ℝ) (ext : ℝ × ℝ) : ℝ × ℝ :=
  let e0 := signedLogTransform base ext.1
  let e1 := signedLogTransform base ext.2
  if e0 < 1 ∧ -1 < e0 ∧ e1 < 1 ∧ -1 < e1 then
    let lmin := mathLog base e0
    let lmax := mathLog base e1
    let e2 := min lmin lmax
    if 0 ≤ e2 * e1 then (e2, max lmin lmax) else (e2, 0)
  else (e0, e1)

/-- Modelled from the spec: the claimed behaviour of the secondary
reprojection branch of `setExtent` — the stored end is
`max(log start, log end)` when the ORIGINAL bounds have the same sign and
`0` otherwise (claim C1's wording). -/
noncomputable def setExtentPairClaimed (base s e : ℝ) : ℝ × ℝ :=
  let s1 := signedLogTransform base s
  let e1 := signedLogTransform base e
  if s1 < 1 ∧ -1 < s1 ∧ e1 < 1 ∧ -1 < e1 then
    let lmin := mathLog base s1
    let lmax := mathLog base e1
    if Real.sign s = Real.sign e then (min lmin lmax, max lmin lmax)
    else (min lmin lmax, 0)
  else (s1, e1)

lemma unionPair_eq_setExtentPair (base : ℝ) (ext : ℝ × ℝ) :
    unionPair base ext = setExtentPair base ext.1 ext.2 := rfl

lemma logb_fifth_neg : Real.logb 10 ((1 : ℝ)/5) < 0 :=
  Real.logb_neg (by norm_num) (by norm_num) (by norm_num)

lemma logb_half_neg : Real.logb 10 ((1 : ℝ)/2) < 0 :=
  Real.logb_neg (by norm_num) (by norm_num) (by norm_num)

lemma logb_fifth_lt_half : Real.logb 10 ((1 : ℝ)/5) < Real.logb 10 ((1 : ℝ)/2) :=
  Real.logb_lt_logb (by norm_num) (by norm_num) (by norm_num)

lemma transform_two : signedLogTransform 10 2 = (1 : ℝ)/5 := by
  rw [signedLogTransform_lin 10 (by norm_num) (by norm_num)]
  norm_num

lemma transform_five : signedLogTransform 10 5 = (1 : ℝ)/2 := by
  rw [signedLogTransform_lin 10 (by norm_num) (by norm_num)]
  norm_num

/-- Evaluation of `setExtentPair` at the raw bounds `(2, 5)`: although the
bounds share a sign, the stored end is `0`. -/
lemma setExtentPair_two_five : setExtentPair 10 2 5 = (Real.logb 10 ((1 : ℝ)/5), 0) := by
  unfold setExtentPair
  rw [transform_two, transform_five]
  rw [if_pos (by norm_num)]
  have hmin : min (mathLog 10 ((1 : ℝ)/5)) (mathLog 10 ((1 : ℝ)/2)) =
      Real.logb 10 ((1 : ℝ)/5) := by
    rw [mathLog_eq_logb, mathLog_eq_logb]
    exact min_eq_left logb_fifth_lt_half.le
  dsimp only
  rw [hmin]
  rw [if_neg (by
    push_neg
    exact mul_neg_of_neg_of_pos logb_fifth_neg (by norm_num))]

/-- Counterexample to C1: at `setExtent(2, 5)` the original bounds share a
sign, yet the code stores end `= 0` while the claim demands the (negative)
value `max(log(start), log(end))`. -/
theorem setExtent_reproject_counterexample :
    (setExtentPair 10 2 5).2 = 0 ∧ (setExtentPairClaimed 10 2 5).2 < 0 := by
  constructor
  · rw [setExtentPair_two_five]
  · unfold setExtentPairClaimed
    rw [transform_two, transform_five]
    rw [if_pos (by norm_num)]
    rw [if_pos (by rw [Real.sign_of_pos (by norm_num : (0:ℝ) < 2),
      Real.sign_of_pos (by norm_num : (0:ℝ) < 5)])]
    have hmax : max (mathLog 10 ((1 : ℝ)/5)) (mathLog 10 ((1 : ℝ)/2)) =
        Real.logb 10 ((1 : ℝ)/2) := by
      rw [mathLog_eq_logb, mathLog_eq_logb]
      exact max_eq_right logb_fifth_lt_half.le
    dsimp only
    rw [hmax]
    exact logb_half_neg

/-- C1 (amended): the secondary log reprojection of `setExtent` applies
exactly when both transformed bounds lie strictly inside `(-1, 1)`; the
stored start is `min(log start, log end)`, and the stored end is
`max(log start, log end)` when that minimum times the TRANSFORMED end is
nonnegative (not when the original bounds share a sign), and `0` otherwise;
`unionExtent` applies the identical projection to its argument. -/
theorem setExtent_reproject (base s e : ℝ) :
    ((signedLogTransform base s < 1 ∧ -1 < signedLogTransform base s ∧
      signedLogTransform base e < 1 ∧ -1 < signedLogTransform base e) →
      setExtentPair base s e =
        (min (mathLog base (signedLogTransform base s))
             (mathLog base (signedLogTransform base e)),
         if 0 ≤ min (mathLog base (signedLogTransform base s))
                    (mathLog base (signedLogTransform base e)) *
                signedLogTransform base e
         then max (mathLog base (signedLogTransform base s))
                  (mathLog base (signedLogTransform base e))
         else 0)) ∧
    (¬ (signedLogTransform base s < 1 ∧ -1 < signedLogTransform base s ∧
        signedLogTransform base e < 1 ∧ -1 < signedLogTransform base e) →
      setExtentPair base s e = (signedLogTransform base s, signedLogTransform base e)) ∧
    unionPair base (s, e) = setExtentPair base s e := by
  refine ⟨fun h => ?_, fun h => ?_, rfl⟩
  · unfold setExtentPair
    rw [if_pos h]
    dsimp only
    split
    · rfl
    · rfl
  · unfold setExtentPair
    rw [if_neg h]

/-- Witness for C1's amended theorem at base 10 and raw bounds `(2, 5)`. -/
theorem setExtent_reproject_witness :
    setExtentPair 10 2 5 =
      (min (mathLog 10 (signedLogTransform 10 2))
           (mathLog 10 (signedLogTransform 10 5)),
       if 0 ≤ min (mathLog 10 (signedLogTransform 10 2))
                  (mathLog 10 (signedLogTransform 10 5)) *
              signedLogTransform 10 5
       then max (mathLog 10 (signedLogTransform 10 2))
                (mathLog 10 (signedLogTransform 10 5))
       else 0) :=
  (setExtent_reproject 10 2 5).1 (by rw [transform_two, transform_five]; norm_num)

/-- State of a `SignLogScale` instance: the transform base, the transformed
extent `this._extent`, and the raw extent held by `this._originalScale`. -/
structure SignLogState where
  base : ℝ
  extent : ℝ × ℝ
  origExtent : ℝ × ℝ

/-- Modelled from the spec: the external linear scale's `unionExtent` (and
`Scale.prototype.unionExtent`), which unions a candidate range into a stored
extent componentwise (minimum of lower bounds, maximum of upper bounds). -/
noncomputable def extUnion (a b : ℝ × ℝ) : ℝ × ℝ := (min a.1 b.1, max a.2 b.2)

/-- Method `unionExtent` of `SignLogScale` in store-passing style: the raw
argument is first unioned into the original linear scale, then the caller's
argument array is mutated in place (transform plus optional reprojection)
and the mutated array is unioned into the transformed extent.  The second
component of the result is the final content of the caller's array. -/
noncomputable def unionExtent (st : SignLogState) (ext : ℝ × ℝ) :
    SignLogState × (ℝ × ℝ) :=
  let orig := extUnion st.origExtent ext
  let mutated := unionPair st.base ext
  ({ st with origExtent := orig, extent := extUnion st.extent mutated }, mutated)

/-- Method `unionExtentFromData` of `SignLogScale`: fetches the series-data
collaborator's approximate extent array (here a parameter standing for
`data.getApproximateExtent(dim)`) and forwards that very array to
`unionExtent`, which mutates it. -/
noncomputable def unionExtentFromData (st : SignLogState) (dataExtent : ℝ × ℝ) :
    SignLogState × (ℝ × ℝ) :=
  unionExtent st dataExtent

/-- C10: `unionExtent` mutates the caller's argument pair in place — after
the call the argument holds the signed-log-transformed (and, when both
transformed values fall strictly inside `(-1, 1)`, further log-reprojected)
values, not the raw values passed in (witnessed at the raw pair `(2, 5)`,
whose final content differs from the input) — and `unionExtentFromData`
forwards the series-data collaborator's extent array into this mutation. -/
theorem unionExtent_mutates_argument (st : SignLogState) (ext : ℝ × ℝ) :
    (unionExtent st ext).2 = setExtentPair st.base ext.1 ext.2 ∧
    (unionExtentFromData st ext).2 = setExtentPair st.base ext.1 ext.2 ∧
    setExtentPair 10 2 5 ≠ (2, 5) := by
  refine ⟨rfl, rfl, fun h => ?_⟩
  rw [setExtentPair_two_five] at h
  have h2 := congrArg Prod.snd h
  norm_num at h2

/-- Number of iterations performed by the interval-coarsening `while` loop
of `calcNiceTicks` (`while (|interval| < 1 and |interval| > 0) interval *= 10`)
for a real starting value: zero outside the loop's guard, and otherwise the
number of decimal shifts needed to reach unit magnitude. -/
noncomputable def coarsenSteps (r : ℝ) : ℕ :=
  if |r| < 1 ∧ 0 < |r| then (⌈-Real.logb 10 |r|⌉).toNat else 0

/-- Final value of the interval-coarsening `while` loop of `calcNiceTicks`
started at `r`. -/
noncomputable def coarsen (r : ℝ) : ℝ := r * 10 ^ coarsenSteps r

lemma coarsen_of_not {r : ℝ} (h : ¬ (|r| < 1 ∧ 0 < |r|)) : coarsen r = r := by
  unfold coarsen coarsenSteps
  rw [if_neg h, pow_zero, mul_one]

lemma ceil_negLogb_pos {r : ℝ} (h : |r| < 1 ∧ 0 < |r|) :
    1 ≤ ⌈-Real.logb 10 |r|⌉ := by
  have hneg : Real.logb 10 |r| < 0 := Real.logb_neg (by norm_num) h.2 h.1
  have : (0 : ℝ) < -Real.logb 10 |r| := by linarith
  exact Int.ceil_pos.mpr this

lemma coarsenSteps_succ {r : ℝ} (h : |r| < 1 ∧ 0 < |r|) :
    coarsenSteps r = coarsenSteps (10 * r) + 1 := by
  have hr0 : r ≠ 0 := fun hc => by simp [hc] at h
  have h10 : |10 * r| = 10 * |r| := by
    rw [abs_mul]
    norm_num
  have hlogmul : Real.logb 10 |10 * r| = 1 + Real.logb 10 |r| := by
    rw [h10, Real.logb_mul (by norm_num) (ne_of_gt h.2),
      Real.logb_self_eq_one (by norm_num)]
  have hceil := ceil_negLogb_pos h
  unfold coarsenSteps
  by_cases h2 : |10 * r| < 1 ∧ 0 < |10 * r|
  · rw [if_pos h, if_pos h2]
    have hL : -Real.logb 10 |10 * r| = -Real.logb 10 |r| - 1 := by
      rw [hlogmul]
      ring
    rw [hL, Int.ceil_sub_one]
    omega
  · rw [if_pos h, if_neg h2]
    have habs : 0 < |10 * r| := by
      rw [h10]
      positivity
    have hge : 1 ≤ |10 * r| := by
      by_contra hc
      push_neg at hc
      exact h2 ⟨hc, habs⟩
    have hten : (1 : ℝ)/10 ≤ |r| := by
      rw [h10] at hge
      linarith
    have hlb : -1 ≤ Real.logb 10 |r| := by
      rw [Real.le_logb_iff_rpow_le (by norm_num) h.2, Real.rpow_neg_one]
      rw [show ((10 : ℝ)⁻¹ = 1/10) by norm_num]
      exact hten
    have hneg : Real.logb 10 |r| < 0 := Real.logb_neg (by norm_num) h.2 h.1
    have : ⌈-Real.logb 10 |r|⌉ = 1 := by
      rw [Int.ceil_eq_iff]
      constructor
      · push_cast
        linarith
      · push_cast
        linarith
    omega

lemma coarsen_loop_unfold (r : ℝ) :
    coarsen r = if |r| < 1 ∧ 0 < |r| then coarsen (10 * r) else r := by
  by_cases h : |r| < 1 ∧ 0 < |r|
  · rw [if_pos h]
    unfold coarsen
    rw [coarsenSteps_succ h, pow_succ]
    ring
  · rw [if_neg h]
    exact coarsen_of_not h

lemma coarsen_exit (r : ℝ) : ¬ (|coarsen r| < 1 ∧ 0 < |coarsen r|) := by
  by_cases h : |r| < 1 ∧ 0 < |r|
  · -- the loop runs: on exit magnitude is at least one
    have hk : coarsenSteps r = (⌈-Real.logb 10 |r|⌉).toNat := if_pos h
    have hceil := ceil_negLogb_pos h
    have hkR : -Real.logb 10 |r| ≤ ((coarsenSteps r : ℕ) : ℝ) := by
      rw [hk]
      rw [show (((⌈-Real.logb 10 |r|⌉).toNat : ℕ) : ℝ) = ((⌈-Real.logb 10 |r|⌉ : ℤ) : ℝ) by
        norm_cast
        omega]
      exact Int.le_ceil _
    have hpow : |r|⁻¹ ≤ (10 : ℝ) ^ (coarsenSteps r : ℕ) := by
      have h1 : (10 : ℝ) ^ (-Real.logb 10 |r|) ≤ (10 : ℝ) ^ (((coarsenSteps r : ℕ) : ℝ)) :=
        (Real.rpow_le_rpow_left_iff (by norm_num)).mpr hkR
      rw [Real.rpow_natCast] at h1
      rw [Real.rpow_neg (by norm_num), Real.rpow_logb (by norm_num) (by norm_num) h.2] at h1
      exact h1
    have hone : 1 ≤ |coarsen r| := by
      unfold coarsen
      rw [abs_mul, abs_pow]
      rw [show |(10 : ℝ)| = 10 by norm_num]
      calc (1 : ℝ) = |r| * |r|⁻¹ := by
            rw [mul_inv_cancel₀ (ne_of_gt h.2)]
        _ ≤ |r| * (10 : ℝ) ^ (coarsenSteps r : ℕ) :=
            mul_le_mul_of_nonneg_left hpow (abs_nonneg r)
    intro hc
    linarith [hc.1]
  · rw [coarsen_of_not h]
    exact h

lemma coarsen_ne_zero {r : ℝ} (hr : r ≠ 0) : coarsen r ≠ 0 :=
  mul_ne_zero hr (pow_ne_zero _ (by norm_num))

/-- State mutated by `calcNiceTicks`: the stored interval `this._interval`
and nice extent `this._niceExtent`. -/
structure NiceState where
  interval : ℝ
  niceExtent : ℝ × ℝ

/-- Method `calcNiceTicks` of `SignLogScale` over exact reals.  The external
helpers `numberUtil.quantity` and `numberUtil.round` are parameters; the
guard `span === Infinity || span <= 0` degenerates to `span ≤ 0` over `ℝ`
(the NaN/Infinity behaviour is modelled separately on `JSNum`). -/
noncomputable def calcNiceTicksR (quantity nuRound : ℝ → ℝ) (approxTickNum : ℝ)
    (extent : ℝ × ℝ) (st : NiceState) : NiceState :=
  let approx := if approxTickNum = 0 then 10 else approxTickNum
  let span := extent.2 - extent.1
  if span ≤ 0 then st
  else
    let interval0 := quantity span
    let err := approx / span * interval0
    let interval1 := if err ≤ 1/2 then interval0 * 10 else interval0
    let interval2 := coarsen interval1
    { interval := interval2,
      niceExtent := (nuRound ((⌈extent.1 / interval2⌉ : ℤ) * interval2),
                     nuRound ((⌊extent.2 / interval2⌋ : ℤ) * interval2)) }

/-- C9: the interval-coarsening loop of `calcNiceTicks` terminates for every
real starting value (the total function `coarsen` satisfies the loop's
unfolding equation), on exit the interval is never a nonzero value of
magnitude below one, and consequently whenever the span is positive and the
quantity helper returns a positive value the stored interval has magnitude
at least one. -/
theorem calcNiceTicks_interval_magnitude :
    (∀ r : ℝ, coarsen r = if |r| < 1 ∧ 0 < |r| then coarsen (10 * r) else r) ∧
    (∀ r : ℝ, ¬ (|coarsen r| < 1 ∧ 0 < |coarsen r|)) ∧
    (∀ (quantity nuRound : ℝ → ℝ) (approxTickNum : ℝ) (extent : ℝ × ℝ) (st : NiceState),
      0 < extent.2 - extent.1 → 0 < quantity (extent.2 - extent.1) →
      1 ≤ |(calcNiceTicksR quantity nuRound approxTickNum extent st).interval|) := by
  refine ⟨coarsen_loop_unfold, coarsen_exit, ?_⟩
  intro quantity nuRound approxTickNum extent st hspan hq
  unfold calcNiceTicksR
  rw [if_neg (not_le.mpr hspan)]
  dsimp only
  set i1 := if (if approxTickNum = 0 then (10:ℝ) else approxTickNum) / (extent.2 - extent.1) *
      quantity (extent.2 - extent.1) ≤ 1/2
    then quantity (extent.2 - extent.1) * 10 else quantity (extent.2 - extent.1) with hi1
  have hi1pos : 0 < i1 := by
    rw [hi1]
    split_ifs <;> first | exact hq | linarith
  have hne := coarsen_ne_zero (ne_of_gt hi1pos)
  have habs : 0 < |coarsen i1| := abs_pos.mpr hne
  have := coarsen_exit i1
  by_contra hc
  push_neg at hc
  exact this ⟨hc, habs⟩

/-- Witness for C9 with a positive span and a positive quantity value. -/
theorem calcNiceTicks_interval_magnitude_witness :
    1 ≤ |(calcNiceTicksR (fun _ => 1/2) (fun x => x) 10 (0, 2) ⟨0, (0, 0)⟩).interval| :=
  calcNiceTicks_interval_magnitude.2.2 (fun _ => 1/2) (fun x => x) 10 (0, 2) ⟨0, (0, 0)⟩
    (by norm_num) (by norm_num)

/-- JavaScript number for modelling the NaN/Infinity behaviour of
`calcNiceTicks`: a finite real, a signed infinity, or NaN. -/
inductive JSNum where
  | nan : JSNum
  | inf : JSNum
  | ninf : JSNum
  | fin : ℝ → JSNum

/-- JavaScript subtraction on `JSNum`; NaN propagates and `∞ - ∞` is NaN. -/
noncomputable def jsSub : JSNum → JSNum → JSNum
  | JSNum.nan, _ => JSNum.nan
  | _, JSNum.nan => JSNum.nan
  | JSNum.inf, JSNum.inf => JSNum.nan
  | JSNum.inf, _ => JSNum.inf
  | JSNum.ninf, JSNum.ninf => JSNum.nan
  | JSNum.ninf, _ => JSNum.ninf
  | JSNum.fin _, JSNum.inf => JSNum.ninf
  | JSNum.fin _, JSNum.ninf => JSNum.inf
  | JSNum.fin a, JSNum.fin b => JSNum.fin (a - b)

/-- JavaScript comparison `a <= b` on `JSNum`: every comparison involving
NaN is false. -/
noncomputable def jsLe : JSNum → JSNum → Bool
  | JSNum.nan, _ => false
  | _, JSNum.nan => false
  | JSNum.ninf, _ => true
  | JSNum.inf, JSNum.inf => true
  | JSNum.inf, _ => false
  | JSNum.fin _, JSNum.inf => true
  | JSNum.fin _, JSNum.ninf => false
  | JSNum.fin a, JSNum.fin b => if a ≤ b then true else false

/-- JavaScript strict-equality test `value === Infinity`. -/
def jsEqInf : JSNum → Bool
  | JSNum.inf => true
  | _ => false

/-- JavaScript truthiness, for the `approxTickNum || 10` default: `0` and
NaN are falsy. -/
noncomputable def jsTruthy : JSNum → Bool
  | JSNum.nan => false
  | JSNum.fin a => if a = 0 then false else true
  | _ => true

/-- JavaScript multiplication on `JSNum` (NaN propagates; `∞ * 0` is NaN). -/
noncomputable def jsMul : JSNum → JSNum → JSNum
  | JSNum.nan, _ => JSNum.nan
  | _, JSNum.nan => JSNum.nan
  | JSNum.inf, JSNum.inf => JSNum.inf
  | JSNum.inf, JSNum.ninf => JSNum.ninf
  | JSNum.inf, JSNum.fin b =>
      if b = 0 then JSNum.nan else if 0 < b then JSNum.inf else JSNum.ninf
  | JSNum.ninf, JSNum.inf => JSNum.ninf
  | JSNum.ninf, JSNum.ninf => JSNum.inf
  | JSNum.ninf, JSNum.fin b =>
      if b = 0 then JSNum.nan else if 0 < b then JSNum.ninf else JSNum.inf
  | JSNum.fin a, JSNum.inf =>
      if a = 0 then JSNum.nan else if 0 < a then JSNum.inf else JSNum.ninf
  | JSNum.fin a, JSNum.ninf =>
      if a = 0 then JSNum.nan else if 0 < a then JSNum.ninf else JSNum.inf
  | JSNum.fin a, JSNum.fin b => JSNum.fin (a * b)

/-- JavaScript division on `JSNum` (NaN propagates; `∞ / ∞` is NaN; a
nonzero finite value divided by zero gives a signed infinity). -/
noncomputable def jsDiv : JSNum → JSNum → JSNum
  | JSNum.nan, _ => JSNum.nan
  | _, JSNum.nan => JSNum.nan
  | JSNum.inf, JSNum.inf => JSNum.nan
  | JSNum.inf, JSNum.ninf => JSNum.nan
  | JSNum.ninf, JSNum.inf => JSNum.nan
  | JSNum.ninf, JSNum.ninf => JSNum.nan
  | JSNum.inf, JSNum.fin b => if 0 ≤ b then JSNum.inf else JSNum.ninf
  | JSNum.ninf, JSNum.fin b => if 0 ≤ b then JSNum.ninf else JSNum.inf
  | JSNum.fin _, JSNum.inf => JSNum.fin 0
  | JSNum.fin _, JSNum.ninf => JSNum.fin 0
  | JSNum.fin a, JSNum.fin b =>
      if b = 0 then (if a = 0 then JSNum.nan else if 0 < a then JSNum.inf else JSNum.ninf)
      else JSNum.fin (a / b)

/-- JavaScript `Math.ceil` on `JSNum`. -/
noncomputable def jsCeil : JSNum → JSNum
  | JSNum.fin a => JSNum.fin ((⌈a⌉ : ℤ) : ℝ)
  | x => x

/-- JavaScript `Math.floor` on `JSNum`. -/
noncomputable def jsFloor : JSNum → JSNum
  | JSNum.fin a => JSNum.fin ((⌊a⌋ : ℤ) : ℝ)
  | x => x

/-- Interval-coarsening `while` loop of `calcNiceTicks` lifted to `JSNum`:
the `!isNaN` guard exits immediately on NaN, the infinities fail
`|interval| < 1`, and a finite value runs the real loop `coarsen`. -/
noncomputable def jsCoarsen : JSNum → JSNum
  | JSNum.fin a => JSNum.fin (coarsen a)
  | x => x

/-- Modelled from the spec: the external helper `numberUtil.round` in its
one-argument form — precision-aware rounding keeping ten decimal digits. -/
noncomputable def nuRound (x : ℝ) : ℝ := ((⌊x * 10 ^ 10 + 1/2⌋ : ℤ) : ℝ) / 10 ^ 10

/-- Modelled from the spec: the external helper `numberUtil.quantity`
(order-of-magnitude step `10 ^ floor(log10 span)`), lifted to `JSNum` with
JavaScript NaN/Infinity propagation. -/
noncomputable def quantityJS : JSNum → JSNum
  | JSNum.nan => JSNum.nan
  | JSNum.inf => JSNum.inf
  | JSNum.ninf => JSNum.nan
  | JSNum.fin a =>
      if a = 0 then JSNum.fin 0
      else if a < 0 then JSNum.nan
      else JSNum.fin ((10 : ℝ) ^ ((⌊Real.logb 10 a⌋ : ℤ) : ℝ))

/-- Modelled from the spec: `numberUtil.round` lifted to `JSNum` (NaN and
the infinities pass through). -/
noncomputable def nuRoundJS : JSNum → JSNum
  | JSNum.fin a => JSNum.fin (nuRound a)
  | x => x

/-- State mutated by `calcNiceTicks` in the `JSNum` model. -/
structure NiceStateJS where
  interval : JSNum
  niceExtent : JSNum × JSNum

/-- Method `calcNiceTicks` of `SignLogScale` over `JSNum`, capturing the
source's NaN/Infinity behaviour: the guard `span === Infinity || span <= 0`,
the `!isNaN`-guarded coarsening loop, and NaN propagation through the
arithmetic.  The external numeric helpers are parameters. -/
noncomputable def calcNiceTicksJS (quantity nuRd : JSNum → JSNum)
    (approxTickNum : JSNum) (extent : JSNum × JSNum) (st : NiceStateJS) : NiceStateJS :=
  let approx := if jsTruthy approxTickNum then approxTickNum else JSNum.fin 10
  let span := jsSub extent.2 extent.1
  if jsEqInf span || jsLe span (JSNum.fin 0) then st
  else
    let interval0 := quantity span
    let err := jsMul (jsDiv approx span) interval0
    let interval1 :=
      if jsLe err (JSNum.fin (1/2)) then jsMul interval0 (JSNum.fin 10) else interval0
    let interval2 := jsCoarsen interval1
    { interval := interval2,
      niceExtent := (nuRd (jsMul (jsCeil (jsDiv extent.1 interval2)) interval2),
                     nuRd (jsMul (jsFloor (jsDiv extent.2 interval2)) interval2)) }

/-- C6 (amended): `calcNiceTicks` is a no-op exactly under the source guard
`span === Infinity || span <= 0` — this covers `+Infinity`, `-Infinity` and
nonpositive finite spans, but NOT a NaN span, because both NaN comparisons
are false (see the separate counterexample). -/
theorem calcNiceTicks_noop (quantity nuRd : JSNum → JSNum) (approxTickNum : JSNum)
    (extent : JSNum × JSNum) (st : NiceStateJS)
    (h : jsSub extent.2 extent.1 = JSNum.inf ∨ jsSub extent.2 extent.1 = JSNum.ninf ∨
      ∃ r : ℝ, jsSub extent.2 extent.1 = JSNum.fin r ∧ r ≤ 0) :
    calcNiceTicksJS quantity nuRd approxTickNum extent st = st := by
  rcases h with h | h | ⟨r, hr, hr0⟩
  · simp [calcNiceTicksJS, h, jsEqInf]
  · simp [calcNiceTicksJS, h, jsEqInf, jsLe]
  · simp [calcNiceTicksJS, hr, jsEqInf, jsLe, hr0]

/-- Witness for C6's amended theorem: a zero span leaves the state intact. -/
theorem calcNiceTicks_noop_witness :
    calcNiceTicksJS quantityJS nuRoundJS (JSNum.fin 10) (JSNum.fin 0, JSNum.fin 0)
      ⟨JSNum.fin 0, (JSNum.fin 0, JSNum.fin 0)⟩ =
      ⟨JSNum.fin 0, (JSNum.fin 0, JSNum.fin 0)⟩ :=
  calcNiceTicks_noop quantityJS nuRoundJS (JSNum.fin 10) (JSNum.fin 0, JSNum.fin 0)
    ⟨JSNum.fin 0, (JSNum.fin 0, JSNum.fin 0)⟩
    (Or.inr (Or.inr ⟨0 - 0, rfl, by norm_num⟩))

/-- Counterexample to C6: a NaN span (here produced as `∞ - ∞`) is NOT
short-circuited — `calcNiceTicks` proceeds and overwrites the stored
interval and nice extent with NaN values. -/
theorem calcNiceTicks_nan_counterexample :
    calcNiceTicksJS quantityJS nuRoundJS (JSNum.fin 10) (JSNum.inf, JSNum.inf)
        ⟨JSNum.fin 0, (JSNum.fin 0, JSNum.fin 0)⟩ ≠
      ⟨JSNum.fin 0, (JSNum.fin 0, JSNum.fin 0)⟩ ∧
    (calcNiceTicksJS quantityJS nuRoundJS (JSNum.fin 10) (JSNum.inf, JSNum.inf)
        ⟨JSNum.fin 0, (JSNum.fin 0, JSNum.fin 0)⟩).interval = JSNum.nan := by
  have hcalc : calcNiceTicksJS quantityJS nuRoundJS (JSNum.fin 10) (JSNum.inf, JSNum.inf)
      ⟨JSNum.fin 0, (JSNum.fin 0, JSNum.fin 0)⟩ =
      ⟨JSNum.nan, (JSNum.nan, JSNum.nan)⟩ := by
    norm_num [calcNiceTicksJS, jsTruthy, jsSub, jsEqInf, jsLe, quantityJS, jsDiv,
      jsMul, jsCoarsen, jsCeil, jsFloor, nuRoundJS]
  refine ⟨?_, ?_⟩
  · rw [hcalc]
    intro hcon
    have hfields := congrArg NiceStateJS.interval hcon
    simp at hfields
  · rw [hcalc]

/-- Method `fuzzyCompare` of `SignLogScale`: three-way comparison with
tolerance `|1e-6 * interval|`. -/
noncomputable def fuzzyCompare (value1 value2 interval : ℝ) : ℤ :=
  let eps := |(1/1000000 : ℝ) * interval|
  if value2 - value1 > eps then -1
  else if value1 - value2 > eps then 1
  else 0

/-- Method `align` of `SignLogScale`: floors the log of the raw min and
ceils the log of the raw max, applies the fuzzy snap (which, as written in
the source, compares the RAW bound itself against the rounded log and snaps
the rounded log to the raw bound), then reconstructs sign-aware aligned
bounds `vMin`, `vMax`. -/
noncomputable def align (base mn mx interval : ℝ) : ℝ × ℝ :=
  let minLog := qwtLog base mn
  let maxLog := qwtLog base mx
  let x1 := if fuzzyCompare mn ((⌊minLog⌋ : ℤ) : ℝ) interval = 0
    then mn else ((⌊minLog⌋ : ℤ) : ℝ)
  let x2 := if fuzzyCompare mx ((⌈maxLog⌉ : ℤ) : ℝ) interval = 0
    then mx else ((⌈maxLog⌉ : ℤ) : ℝ)
  let vMin := if mn = 0 then 0 else if mn < 0 then -(base ^ (-x1)) else base ^ x1
  let vMax := if mx = 0 then 0 else if mx < 0 then -(base ^ (-x2)) else base ^ x2
  (vMin, vMax)

/-- Method `getWdt` of `SignLogScale`: how much of the positive-log axis and
of the negative-log axis the aligned range spans, branching on whether the
range crosses zero, touches it, or lies on one side. -/
noncomputable def getWdt (base mn mx pmin nmax : ℝ) : ℝ × ℝ :=
  if mn * mx ≤ 0 then
    if mn = 0 then
      (if pmin < mx then |qwtLog base mx - qwtLog base pmin| else qwtLog base mx, 0)
    else if mx = 0 then
      (0, if nmax > mn then |qwtLog base nmax - qwtLog base mn| else -(qwtLog base mn))
    else
      if pmin < mx ∧ nmax > mn then
        (|qwtLog base mx - qwtLog base pmin|, |qwtLog base nmax - qwtLog base mn|)
      else if pmin ≥ mx ∧ nmax ≤ mn then
        (|qwtLog base mx|, |(-(qwtLog base mn))|)
      else if pmin ≥ mx then
        (|qwtLog base mx|, |qwtLog base nmax - qwtLog base mn|)
      else
        (|qwtLog base mx - qwtLog base pmin|, |(-(qwtLog base mn))|)
  else
    if 0 < mn then (qwtLog base mx - qwtLog base mn, 0)
    else (0, qwtLog base mx - qwtLog base mn)

/-- Decoded numeric value of a tick descriptor `(sign, value)`:
`sign * base ^ value`, the key of the final sort in `buildMajorTicks`. -/
noncomputable def decode (base : ℝ) (t : ℝ × ℝ) : ℝ := t.1 * base ^ t.2

/-- Comparator of the final tick sort: ascending decoded value. -/
def tickLE (base : ℝ) (a b : ℝ × ℝ) : Prop := decode base a ≤ decode base b

noncomputable instance (base : ℝ) : DecidableRel (tickLE base) :=
  fun a b => Real.decidableLE (decode base a) (decode base b)

instance (base : ℝ) : IsTotal (ℝ × ℝ) (tickLE base) := ⟨fun _ _ => le_total _ _⟩

instance (base : ℝ) : IsTrans (ℝ × ℝ) (tickLE base) := ⟨fun _ _ _ => le_trans⟩

/-- Number of iterations of a loop `for (let i = 1; i < bound; i++)` over a
real bound. -/
noncomputable def cnt (bound : ℝ) : ℕ := (⌈bound⌉ - 1).toNat

/-- Cap of a per-branch tick allocation at 10000
(`num > 10000 ? 10000 : num`). -/
noncomputable def capTen (x : ℝ) : ℝ := if x > 10000 then 10000 else x

/-- Positive-branch interior ticks of `buildMajorTicks`: `num1 - 2` stepped
log positions between the branch bounds, floored to the integer-power grid
and tagged with sign `1`. -/
noncomputable def posBranchTicks (base mn mx pmin1 num1 : ℝ) : List (ℝ × ℝ) :=
  if 1 < num1 then
    let pmax := mathLog base mx
    let pmin2 := if 0 < mn then mn else pmin1
    let pmin3 := mathLog base pmin2
    let pstep := |pmax - pmin3| / (num1 - 1)
    (List.range (cnt (num1 - 1))).map fun (j : ℕ) =>
      ((1 : ℝ), ((⌊min pmin3 pmax + ((j : ℝ) + 1) * pstep⌋ : ℤ) : ℝ))
  else []

/-- Negative-branch interior ticks of `buildMajorTicks`, tagged with
sign `-1`. -/
noncomputable def negBranchTicks (base mn mx nmax1 num2 : ℝ) : List (ℝ × ℝ) :=
  if 1 < num2 then
    let nmax2 := if mx < 0 then mx else nmax1
    let nmax3 := mathLog base (-nmax2)
    let nmin := mathLog base (-mn)
    let nstep := |nmin - nmax3| / (num2 - 1)
    (List.range (cnt (num2 - 1))).map fun (j : ℕ) =>
      ((-1 : ℝ), ((⌊min nmin nmax3 + ((j : ℝ) + 1) * nstep⌋ : ℤ) : ℝ))
  else []

/-- Method `buildMajorTicks` of `SignLogScale`: aligns the raw extent,
estimates branch widths, allocates capped per-branch tick counts, emits the
aligned endpoint ticks plus an optional zero tick plus the interior branch
ticks, and sorts everything by decoded value.  The external helper
`numberUtil.round` is the parameter `nuR`; `origExtent` stands for
`this._originalScale.getExtent()`. -/
noncomputable def buildMajorTicks (base : ℝ) (nuR : ℝ → ℝ) (origExtent : ℝ × ℝ)
    (interval : ℝ) : List (ℝ × ℝ) :=
  let val := align base origExtent.1 origExtent.2 interval
  let mn := val.1
  let mx := val.2
  let pmin0 := qwtLog base origExtent.1
  let nmax0 := qwtLog base origExtent.2
  let x1 := if fuzzyCompare pmin0 ((⌊pmin0⌋ : ℤ) : ℝ) interval = 0
    then pmin0 else ((⌊pmin0⌋ : ℤ) : ℝ)
  let pmin1 := base ^ x1
  let x2 := if fuzzyCompare nmax0 ((⌈nmax0⌉ : ℤ) : ℝ) interval = 0
    then nmax0 else ((⌈nmax0⌉ : ℤ) : ℝ)
  let nmax1 := -(base ^ (-x2))
  let wdt := getWdt base mn mx pmin1 nmax1
  let num1 := capTen (nuR (wdt.1 / interval) + 1)
  let num2 := capTen (nuR (wdt.2 / interval) + 1)
  let ticks0 : List (ℝ × ℝ) := [(Real.sign mn, mathLog base mn), (Real.sign mx, mathLog base mx)]
  let ticks1 := if mn * mx < 0 then ticks0 ++ [((0 : ℝ), (0 : ℝ))] else ticks0
  (ticks1 ++ posBranchTicks base mn mx pmin1 num1 ++
    negBranchTicks base mn mx nmax1 num2).insertionSort (tickLE base)

lemma fuzzyCompare_eq_zero_iff (v1 v2 interval : ℝ) :
    fuzzyCompare v1 v2 interval = 0 ↔
      v2 - v1 ≤ |(1/1000000 : ℝ) * interval| ∧ v1 - v2 ≤ |(1/1000000 : ℝ) * interval| := by
  unfold fuzzyCompare
  dsimp only
  split_ifs with h1 h2
  · constructor
    · intro h
      exact absurd h (by norm_num)
    · rintro ⟨ha, _⟩
      exact absurd h1 (not_lt.mpr ha)
  · constructor
    · intro h
      exact absurd h (by norm_num)
    · rintro ⟨_, hb⟩
      exact absurd h2 (not_lt.mpr hb)
  · exact ⟨fun _ => ⟨not_lt.mp h1, not_lt.mp h2⟩, fun _ => rfl⟩

lemma decode_sign_mathLog (v : ℝ) : decode 10 (Real.sign v, mathLog 10 v) = v := by
  unfold decode
  dsimp only
  rw [mathLog_eq_logb]
  rcases lt_trichotomy v 0 with hv | hv | hv
  · rw [Real.sign_of_neg hv, Real.rpow_logb_of_neg (by norm_num) (by norm_num) hv]
    ring
  · rw [hv, Real.sign_zero, zero_mul]
  · rw [Real.sign_of_pos hv, Real.rpow_logb (by norm_num) (by norm_num) hv, one_mul]

lemma one_lt_log_ten : 1 < Real.log 10 := by
  rw [Real.lt_log_iff_exp_lt (by norm_num)]
  calc Real.exp 1 < 2.7182818286 := Real.exp_one_lt_d9
    _ < 10 := by norm_num

/-- Every real is at most ten raised to itself. -/
lemma self_le_rpow_ten (t : ℝ) : t ≤ (10 : ℝ) ^ t := by
  rcases le_or_lt t 0 with ht | ht
  · exact ht.trans (Real.rpow_pos_of_pos (by norm_num) t).le
  · rw [Real.rpow_def_of_pos (by norm_num : (0:ℝ) < 10)]
    have h1 : Real.log 10 * t + 1 ≤ Real.exp (Real.log 10 * t) := Real.add_one_le_exp _
    have h2 : t ≤ Real.log 10 * t := by
      nlinarith [one_lt_log_ten]
    linarith

/-- The aligned minimum of `align` sits at or below a negative raw minimum,
and stays negative. -/
lemma align_fst_le {rawMin : ℝ} (mx interval : ℝ) (hmin : rawMin < 0) :
    (align 10 rawMin mx interval).1 ≤ rawMin ∧ (align 10 rawMin mx interval).1 < 0 := by
  unfold align
  dsimp only
  rw [if_neg (ne_of_lt hmin), if_pos hmin]
  have hpos : 0 < -rawMin := by linarith
  split_ifs with h1
  · -- the fuzzy snap fired: x1 = rawMin
    refine ⟨?_, ?_⟩
    · have := self_le_rpow_ten (-rawMin)
      linarith
    · have := Real.rpow_pos_of_pos (show (0:ℝ) < 10 by norm_num) (-rawMin)
      linarith
  · -- no snap: x1 = ⌊qwtLog 10 rawMin⌋
    have hq : qwtLog 10 rawMin = -Real.logb 10 (-rawMin) := qwtLog_of_neg 10 hmin
    have hfloor : ((⌊qwtLog 10 rawMin⌋ : ℤ) : ℝ) ≤ qwtLog 10 rawMin := Int.floor_le _
    have hexp : Real.logb 10 (-rawMin) ≤ -((⌊qwtLog 10 rawMin⌋ : ℤ) : ℝ) := by
      linarith [hq.le, hq.ge]
    have hrpow : -rawMin ≤ (10 : ℝ) ^ (-((⌊qwtLog 10 rawMin⌋ : ℤ) : ℝ)) := by
      have h3 := (Real.rpow_le_rpow_left_iff (show (1:ℝ) < 10 by norm_num)).mpr hexp
      rw [Real.rpow_logb (by norm_num) (by norm_num) hpos] at h3
      exact h3
    refine ⟨by linarith, ?_⟩
    have := Real.rpow_pos_of_pos (show (0:ℝ) < 10 by norm_num)
      (-((⌊qwtLog 10 rawMin⌋ : ℤ) : ℝ))
    linarith

/-- The aligned maximum of `align` sits at or above a positive raw maximum,
and stays positive. -/
lemma align_snd_ge {rawMax : ℝ} (mn interval : ℝ) (hmax : 0 < rawMax) :
    rawMax ≤ (align 10 mn rawMax interval).2 ∧ 0 < (align 10 mn rawMax interval).2 := by
  unfold align
  dsimp only
  rw [if_neg (ne_of_gt hmax), if_neg (not_lt.mpr hmax.le)]
  split_ifs with h1
  · -- the fuzzy snap fired: x2 = rawMax
    exact ⟨self_le_rpow_ten rawMax, Real.rpow_pos_of_pos (by norm_num) rawMax⟩
  · -- no snap: x2 = ⌈qwtLog 10 rawMax⌉
    have hq : qwtLog 10 rawMax = Real.logb 10 rawMax := qwtLog_of_pos 10 hmax
    have hceil : qwtLog 10 rawMax ≤ ((⌈qwtLog 10 rawMax⌉ : ℤ) : ℝ) := Int.le_ceil _
    have hceilR : Real.logb 10 rawMax ≤ ((⌈qwtLog 10 rawMax⌉ : ℤ) : ℝ) := by
      linarith [hq.le, hq.ge]
    have hrpow : rawMax ≤ (10 : ℝ) ^ ((⌈qwtLog 10 rawMax⌉ : ℤ) : ℝ) := by
      have h3 := (Real.rpow_le_rpow_left_iff (show (1:ℝ) < 10 by norm_num)).mpr hceilR
      rw [Real.rpow_logb (by norm_num) (by norm_num) hmax] at h3
      exact h3
    exact ⟨hrpow, Real.rpow_pos_of_pos (by norm_num) _⟩

/-- C2: for every raw extent strictly straddling zero (default base 10) and
for every rounding helper and interval, the major-tick builder's output
contains a tick decoding at or below the raw minimum, one decoding at or
above the raw maximum, and one decoding to zero, and the returned sequence
is sorted ascending by decoded value. -/
theorem buildMajorTicks_brackets (nuR : ℝ → ℝ) (interval rawMin rawMax : ℝ)
    (hmin : rawMin < 0) (hmax : 0 < rawMax) :
    (∃ t ∈ buildMajorTicks 10 nuR (rawMin, rawMax) interval, decode 10 t ≤ rawMin) ∧
    (∃ t ∈ buildMajorTicks 10 nuR (rawMin, rawMax) interval, rawMax ≤ decode 10 t) ∧
    (∃ t ∈ buildMajorTicks 10 nuR (rawMin, rawMax) interval, decode 10 t = 0) ∧
    List.Sorted (tickLE 10) (buildMajorTicks 10 nuR (rawMin, rawMax) interval) := by
  obtain ⟨hle, hneg⟩ := align_fst_le rawMax interval hmin
  obtain ⟨hge, hpos⟩ := align_snd_ge rawMin interval hmax
  have hprod : (align 10 rawMin rawMax interval).1 * (align 10 rawMin rawMax interval).2 < 0 :=
    mul_neg_of_neg_of_pos hneg hpos
  refine ⟨?_, ?_, ?_, ?_⟩
  · refine ⟨(Real.sign (align 10 rawMin rawMax interval).1,
      mathLog 10 (align 10 rawMin rawMax interval).1), ?_, ?_⟩
    · unfold buildMajorTicks
      dsimp only
      rw [List.mem_insertionSort]
      refine List.mem_append_left _ (List.mem_append_left _ ?_)
      rw [if_pos hprod]
      exact List.mem_append_left _ (List.mem_cons_self _ _)
    · rw [decode_sign_mathLog]
      exact hle
  · refine ⟨(Real.sign (align 10 rawMin rawMax interval).2,
      mathLog 10 (align 10 rawMin rawMax interval).2), ?_, ?_⟩
    · unfold buildMajorTicks
      dsimp only
      rw [List.mem_insertionSort]
      refine List.mem_append_left _ (List.mem_append_left _ ?_)
      rw [if_pos hprod]
      exact List.mem_append_left _ (List.mem_cons_of_mem _ (List.mem_cons_self _ _))
    · rw [decode_sign_mathLog]
      exact hge
  · refine ⟨((0 : ℝ), (0 : ℝ)), ?_, ?_⟩
    · unfold buildMajorTicks
      dsimp only
      rw [List.mem_insertionSort]
      refine List.mem_append_left _ (List.mem_append_left _ ?_)
      rw [if_pos hprod]
      exact List.mem_append_right _ (List.mem_cons_self _ _)
    · unfold decode
      norm_num
  · unfold buildMajorTicks
    dsimp only
    exact List.sorted_insertionSort (tickLE 10) _

/-- Witness for C2 at the raw extent `(-500, 800)` with interval 1. -/
theorem buildMajorTicks_brackets_witness :
    (∃ t ∈ buildMajorTicks 10 nuRound (-500, 800) 1, decode 10 t ≤ -500) ∧
    (∃ t ∈ buildMajorTicks 10 nuRound (-500, 800) 1, 800 ≤ decode 10 t) ∧
    (∃ t ∈ buildMajorTicks 10 nuRound (-500, 800) 1, decode 10 t = 0) ∧
    List.Sorted (tickLE 10) (buildMajorTicks 10 nuRound (-500, 800) 1) :=
  buildMajorTicks_brackets nuRound 1 (-500) 800 (by norm_num) (by norm_num)

lemma capTen_le (x : ℝ) : capTen x ≤ 10000 := by
  unfold capTen
  split_ifs with h
  · norm_num
  · linarith [not_lt.mp h]

lemma posBranchTicks_length (base mn mx pmin1 num : ℝ) :
    (posBranchTicks base mn mx pmin1 num).length = if 1 < num then cnt (num - 1) else 0 := by
  unfold posBranchTicks
  split_ifs with h1 <;> simp

lemma negBranchTicks_length (base mn mx nmax1 num : ℝ) :
    (negBranchTicks base mn mx nmax1 num).length = if 1 < num then cnt (num - 1) else 0 := by
  unfold negBranchTicks
  split_ifs with h1 <;> simp

lemma cnt_le_of_le {num : ℝ} (h : num ≤ 10000) : cnt (num - 1) ≤ 9998 := by
  unfold cnt
  have hceil : ⌈num - 1⌉ ≤ 9999 := Int.ceil_le.mpr (by push_cast; linarith)
  omega

lemma posBranchTicks_length_le {num : ℝ} (h : num ≤ 10000) (base mn mx pmin1 : ℝ) :
    (posBranchTicks base mn mx pmin1 num).length ≤ 10000 := by
  rw [posBranchTicks_length]
  split_ifs with h1
  · exact le_trans (cnt_le_of_le h) (by norm_num)
  · exact Nat.zero_le _

lemma negBranchTicks_length_le {num : ℝ} (h : num ≤ 10000) (base mn mx nmax1 : ℝ) :
    (negBranchTicks base mn mx nmax1 num).length ≤ 10000 := by
  rw [negBranchTicks_length]
  split_ifs with h1
  · exact le_trans (cnt_le_of_le h) (by norm_num)
  · exact Nat.zero_le _

lemma buildMajorTicks_length_le (base : ℝ) (nuR : ℝ → ℝ) (origExtent : ℝ × ℝ)
    (interval : ℝ) : (buildMajorTicks base nuR origExtent interval).length ≤ 20003 := by
  unfold buildMajorTicks
  dsimp only
  rw [List.length_insertionSort]
  have hob : ∀ l1 l2 l3 : List (ℝ × ℝ), l1.length ≤ 3 → l2.length ≤ 10000 →
      l3.length ≤ 10000 → (l1 ++ l2 ++ l3).length ≤ 20003 := by
    intro l1 l2 l3 a b c
    rw [List.length_append, List.length_append]
    omega
  apply hob
  · split_ifs <;> simp
  · exact posBranchTicks_length_le (capTen_le _) _ _ _ _
  · exact negBranchTicks_length_le (capTen_le _) _ _ _ _

/-- C8: for every input the per-branch tick allocations
`num = round(width / interval) + 1` are capped at 10000, each branch list
carries at most 10000 ticks, and the full output of `buildMajorTicks` is
always a finite list of at most 20003 descriptors — the builder never fails
on degenerate intervals. -/
theorem buildMajorTicks_cap (nuR : ℝ → ℝ) (base interval wdt1 wdt2 : ℝ)
    (mn mx pmin1 nmax1 : ℝ) (origExtent : ℝ × ℝ) :
    capTen (nuR (wdt1 / interval) + 1) ≤ 10000 ∧
    (posBranchTicks base mn mx pmin1 (capTen (nuR (wdt1 / interval) + 1))).length ≤ 10000 ∧
    (negBranchTicks base mn mx nmax1 (capTen (nuR (wdt2 / interval) + 1))).length ≤ 10000 ∧
    (buildMajorTicks base nuR origExtent interval).length ≤ 20003 :=
  ⟨capTen_le _, posBranchTicks_length_le (capTen_le _) _ _ _ _,
    negBranchTicks_length_le (capTen_le _) _ _ _ _,
    buildMajorTicks_length_le base nuR origExtent interval⟩

lemma logb_twenty_bounds : 1 ≤ Real.logb 10 (20 : ℝ) ∧ Real.logb 10 (20 : ℝ) < 2 := by
  constructor
  · rw [Real.le_logb_iff_rpow_le (by norm_num) (by norm_num)]
    rw [Real.rpow_one]
    norm_num
  · rw [Real.logb_lt_iff_lt_rpow (by norm_num) (by norm_num)]
    rw [show ((2 : ℝ) = ((2 : ℕ) : ℝ)) by norm_num, Real.rpow_natCast]
    norm_num

lemma floor_logb_twenty : ⌊Real.logb 10 (20 : ℝ)⌋ = 1 := by
  rw [Int.floor_eq_iff]
  constructor
  · push_cast
    exact logb_twenty_bounds.1
  · push_cast
    linarith [logb_twenty_bounds.2]

lemma qwtLog_twenty : qwtLog 10 (20 : ℝ) = Real.logb 10 20 :=
  qwtLog_of_pos 10 (by norm_num)

/-- Counterexample to C7: at raw minimum 20 with interval `1e6` the exact
log `log10 20 ≈ 1.301` is within the fuzzy tolerance `1` of its floor
`x1 = 1` (so the claim demands a snap to the exact log, which would
reconstruct the bound `10 ^ log10 20 = 20`), yet `align` — which compares
the raw bound 20 itself against `x1` — leaves `x1 = 1` and reconstructs
the aligned bound `10`. -/
theorem align_snap_counterexample :
    fuzzyCompare (qwtLog 10 20) ((⌊qwtLog 10 20⌋ : ℤ) : ℝ) 1000000 = 0 ∧
    (align 10 20 30 1000000).1 = 10 ∧
    (10 : ℝ) ^ (qwtLog 10 20) = 20 := by
  refine ⟨?_, ?_, ?_⟩
  · rw [qwtLog_twenty, floor_logb_twenty, fuzzyCompare_eq_zero_iff]
    have heps : |(1/1000000 : ℝ) * 1000000| = 1 := by norm_num
    rw [heps]
    push_cast
    exact ⟨by linarith [logb_twenty_bounds.1], by linarith [logb_twenty_bounds.2]⟩
  · unfold align
    dsimp only
    rw [qwtLog_twenty, floor_logb_twenty]
    have hfz : ¬ fuzzyCompare 20 (((1 : ℤ)) : ℝ) 1000000 = 0 := by
      rw [fuzzyCompare_eq_zero_iff]
      push_neg
      intro _
      norm_num
    rw [if_neg hfz, if_neg (by norm_num : ¬ (20 : ℝ) = 0),
      if_neg (by norm_num : ¬ (20 : ℝ) < 0)]
    push_cast
    rw [Real.rpow_one]
  · rw [qwtLog_twenty]
    exact Real.rpow_logb (by norm_num) (by norm_num) (by norm_num)

/-- C7 (amended): in `align` the fuzzy check compares the RAW bound itself
(not its exact log) with the floored/ceiled log `x1`/`x2` under the
tolerance `|interval * 1e-6|`, and when it fires it snaps `x1`/`x2` to the
raw bound itself (not to the exact log); for positive bounds the aligned
minimum is therefore `base ^ mn` when `fuzzyCompare mn x1 interval = 0` and
`base ^ ⌊qwtLog base mn⌋` otherwise, and symmetrically for the maximum. -/
theorem align_snap (base mn mx interval : ℝ) (hmn : 0 < mn) (hmx : 0 < mx) :
    ((fuzzyCompare mn ((⌊qwtLog base mn⌋ : ℤ) : ℝ) interval = 0 →
        (align base mn mx interval).1 = base ^ mn) ∧
      (fuzzyCompare mn ((⌊qwtLog base mn⌋ : ℤ) : ℝ) interval ≠ 0 →
        (align base mn mx interval).1 = base ^ ((⌊qwtLog base mn⌋ : ℤ) : ℝ))) ∧
    ((fuzzyCompare mx ((⌈qwtLog base mx⌉ : ℤ) : ℝ) interval = 0 →
        (align base mn mx interval).2 = base ^ mx) ∧
      (fuzzyCompare mx ((⌈qwtLog base mx⌉ : ℤ) : ℝ) interval ≠ 0 →
        (align base mn mx interval).2 = base ^ ((⌈qwtLog base mx⌉ : ℤ) : ℝ))) := by
  unfold align
  dsimp only
  rw [if_neg (ne_of_gt hmn), if_neg (not_lt.mpr hmn.le),
    if_neg (ne_of_gt hmx), if_neg (not_lt.mpr hmx.le)]
  refine ⟨⟨fun h => ?_, fun h => ?_⟩, fun h => ?_, fun h => ?_⟩
  · rw [if_pos h]
  · rw [if_neg h]
  · rw [if_pos h]
  · rw [if_neg h]

/-- Witness for C7's amended theorem: at raw bound 20 and interval `1e6`
the raw-value comparison fails, so the aligned minimum is the floored
power `10 ^ 1`. -/
theorem align_snap_witness :
    (align 10 20 30 1000000).1 = (10 : ℝ) ^ ((⌊qwtLog 10 20⌋ : ℤ) : ℝ) :=
  ((align_snap 10 20 30 1000000 (by norm_num) (by norm_num)).1).2 (by
    rw [qwtLog_twenty, floor_logb_twenty]
    intro hcon
    rw [fuzzyCompare_eq_zero_iff] at hcon
    norm_num at hcon)

/-- C3 (amended): for every raw extent, `buildMajorTicks` emits a tick
decoding to the ALIGNED minimum and one decoding to the ALIGNED maximum
produced by `align` — not to the raw extent's own bounds, which they match
only when alignment leaves them unchanged — and when the aligned bounds'
product is negative (equivalently the raw product, since alignment
preserves signs) it also emits the `(sign = 0, value = 0)` tick. -/
theorem buildMajorTicks_endpoint_ticks (nuR : ℝ → ℝ) (origExtent : ℝ × ℝ) (interval : ℝ) :
    (∃ t ∈ buildMajorTicks 10 nuR origExtent interval,
      decode 10 t = (align 10 origExtent.1 origExtent.2 interval).1) ∧
    (∃ t ∈ buildMajorTicks 10 nuR origExtent interval,
      decode 10 t = (align 10 origExtent.1 origExtent.2 interval).2) ∧
    ((align 10 origExtent.1 origExtent.2 interval).1 *
        (align 10 origExtent.1 origExtent.2 interval).2 < 0 →
      ((0 : ℝ), (0 : ℝ)) ∈ buildMajorTicks 10 nuR origExtent interval) := by
  refine ⟨?_, ?_, fun hprod => ?_⟩
  · refine ⟨(Real.sign (align 10 origExtent.1 origExtent.2 interval).1,
      mathLog 10 (align 10 origExtent.1 origExtent.2 interval).1), ?_, decode_sign_mathLog _⟩
    unfold buildMajorTicks
    dsimp only
    rw [List.mem_insertionSort]
    refine List.mem_append_left _ (List.mem_append_left _ ?_)
    split_ifs
    · exact List.mem_append_left _ (List.mem_cons_self _ _)
    · exact List.mem_cons_self _ _
  · refine ⟨(Real.sign (align 10 origExtent.1 origExtent.2 interval).2,
      mathLog 10 (align 10 origExtent.1 origExtent.2 interval).2), ?_, decode_sign_mathLog _⟩
    unfold buildMajorTicks
    dsimp only
    rw [List.mem_insertionSort]
    refine List.mem_append_left _ (List.mem_append_left _ ?_)
    split_ifs
    · exact List.mem_append_left _ (List.mem_cons_of_mem _ (List.mem_cons_self _ _))
    · exact List.mem_cons_of_mem _ (List.mem_cons_self _ _)
  · unfold buildMajorTicks
    dsimp only
    rw [List.mem_insertionSort]
    refine List.mem_append_left _ (List.mem_append_left _ ?_)
    rw [if_pos hprod]
    exact List.mem_append_right _ (List.mem_cons_self _ _)

/-- Witness for C3's amended theorem: the zero tick appears for the raw
extent `(-10, 10)`, whose aligned bounds have a negative product. -/
theorem buildMajorTicks_endpoint_ticks_witness :
    ((0 : ℝ), (0 : ℝ)) ∈ buildMajorTicks 10 nuRound (-10, 10) 1 :=
  (buildMajorTicks_endpoint_ticks nuRound (-10, 10) 1).2.2 (by
    have h1 := @align_fst_le (-10) 10 1 (by norm_num)
    have h2 := @align_snd_ge 10 (-10) 1 (by norm_num)
    exact mul_neg_of_neg_of_pos h1.2 h2.2)

lemma eps_one : |(1/1000000 : ℝ) * 1| = 1/1000000 := by
  rw [mul_one]
  exact abs_of_pos (by norm_num)

lemma fuzzyCompare_pos {v1 v2 interval : ℝ}
    (h : |(1/1000000 : ℝ) * interval| < v1 - v2) :
    fuzzyCompare v1 v2 interval = 1 := by
  unfold fuzzyCompare
  dsimp only
  rw [if_neg (by
    push_neg
    linarith [abs_nonneg ((1/1000000 : ℝ) * interval)]), if_pos h]

lemma fuzzyCompare_neg {v1 v2 interval : ℝ}
    (h : |(1/1000000 : ℝ) * interval| < v2 - v1) :
    fuzzyCompare v1 v2 interval = -1 := by
  unfold fuzzyCompare
  dsimp only
  rw [if_pos h]

lemma rpow_three : (10 : ℝ) ^ ((3 : ℝ)) = 1000 := by
  rw [show ((3 : ℝ) = ((3 : ℕ) : ℝ)) by norm_num, Real.rpow_natCast]
  norm_num

lemma rpow_seven : (10 : ℝ) ^ ((7 : ℝ)) = 10000000 := by
  rw [show ((7 : ℝ) = ((7 : ℕ) : ℝ)) by norm_num, Real.rpow_natCast]
  norm_num

lemma logb_two_gt : (3/10 : ℝ) < Real.logb 10 2 := by
  rw [Real.lt_logb_iff_rpow_lt (by norm_num) (by norm_num)]
  refine lt_of_pow_lt_pow_left₀ 10 (by norm_num) ?_
  have h1 : ((10 : ℝ) ^ ((3 : ℝ)/10)) ^ (10 : ℕ) = (10 : ℝ) ^ ((3 : ℝ)) := by
    rw [← Real.rpow_natCast ((10 : ℝ) ^ ((3 : ℝ)/10)) 10,
      ← Real.rpow_mul (by norm_num)]
    norm_num
  rw [h1, rpow_three]
  norm_num

lemma logb_two_lt : Real.logb 10 2 < (7/10 : ℝ) := by
  rw [Real.logb_lt_iff_lt_rpow (by norm_num) (by norm_num)]
  refine lt_of_pow_lt_pow_left₀ 10 (Real.rpow_pos_of_pos (by norm_num) _).le ?_
  have h1 : ((10 : ℝ) ^ ((7 : ℝ)/10)) ^ (10 : ℕ) = (10 : ℝ) ^ ((7 : ℝ)) := by
    rw [← Real.rpow_natCast ((10 : ℝ) ^ ((7 : ℝ)/10)) 10,
      ← Real.rpow_mul (by norm_num)]
    norm_num
  rw [h1, rpow_seven]
  norm_num

lemma logb_two_lt_one : Real.logb 10 (2 : ℝ) < 1 := by
  rw [Real.logb_lt_iff_lt_rpow (by norm_num) (by norm_num), Real.rpow_one]
  norm_num

lemma floor_logb_two : ⌊Real.logb 10 (2 : ℝ)⌋ = 0 := by
  rw [Int.floor_eq_iff]
  constructor
  · push_cast
    exact Real.logb_nonneg (by norm_num) (by norm_num)
  · push_cast
    linarith [logb_two_lt_one]

lemma ceil_logb_two : ⌈Real.logb 10 (2 : ℝ)⌉ = 1 := by
  rw [Int.ceil_eq_iff]
  constructor
  · push_cast
    linarith [Real.logb_pos (show (1:ℝ) < 10 by norm_num) (show (1:ℝ) < 2 by norm_num)]
  · push_cast
    linarith [logb_two_lt_one]

lemma qwtLog_two : qwtLog 10 (2 : ℝ) = Real.logb 10 2 :=
  qwtLog_of_pos 10 (by norm_num)

lemma align_two_two : align 10 2 2 1 = (1, 10) := by
  unfold align
  dsimp only
  rw [qwtLog_two, floor_logb_two, ceil_logb_two]
  have hfa1 : fuzzyCompare 2 (((0 : ℤ)) : ℝ) 1 = 1 :=
    fuzzyCompare_pos (by rw [eps_one]; push_cast; norm_num)
  have hfa2 : fuzzyCompare 2 (((1 : ℤ)) : ℝ) 1 = 1 :=
    fuzzyCompare_pos (by rw [eps_one]; push_cast; norm_num)
  rw [if_neg (show ¬ (2 : ℝ) = 0 by norm_num)]
  rw [if_neg (show ¬ (2 : ℝ) < 0 by norm_num)]
  rw [if_neg (show ¬ (2 : ℝ) = 0 by norm_num)]
  rw [if_neg (show ¬ (2 : ℝ) < 0 by norm_num)]
  rw [if_neg (show ¬ fuzzyCompare 2 (((0 : ℤ)) : ℝ) 1 = 0 by rw [hfa1]; norm_num)]
  rw [if_neg (show ¬ fuzzyCompare 2 (((1 : ℤ)) : ℝ) 1 = 0 by rw [hfa2]; norm_num)]
  push_cast
  rw [Real.rpow_zero, Real.rpow_one]

lemma getWdt_one_ten (pm nm : ℝ) : getWdt 10 1 10 pm nm = (1, 0) := by
  unfold getWdt
  rw [if_neg (by norm_num : ¬ (1 : ℝ) * 10 ≤ 0), if_pos (by norm_num : (0 : ℝ) < 1)]
  rw [qwtLog_of_pos 10 (by norm_num : (0:ℝ) < 10), qwtLog_of_pos 10 (by norm_num : (0:ℝ) < 1)]
  rw [Real.logb_self_eq_one (by norm_num), Real.logb_one]
  norm_num

lemma nuRound_one : nuRound 1 = 1 := by
  unfold nuRound
  have h : ⌊(1 : ℝ) * 10 ^ 10 + 1/2⌋ = 10000000000 := by
    rw [Int.floor_eq_iff]
    constructor
    · push_cast
      norm_num
    · push_cast
      norm_num
  rw [h]
  norm_num

lemma nuRound_zero : nuRound 0 = 0 := by
  unfold nuRound
  have h : ⌊(0 : ℝ) * 10 ^ 10 + 1/2⌋ = 0 := by
    rw [Int.floor_eq_iff]
    constructor
    · push_cast
      norm_num
    · push_cast
      norm_num
  rw [h]
  norm_num

lemma posBranchTicks_num_two (mn mx pm : ℝ) : posBranchTicks 10 mn mx pm 2 = [] := by
  unfold posBranchTicks
  rw [if_pos (by norm_num : (1 : ℝ) < 2)]
  dsimp only
  have hc : cnt ((2 : ℝ) - 1) = 0 := by
    unfold cnt
    rw [show ((2 : ℝ) - 1 = 1) by norm_num, Int.ceil_one]
    norm_num
  rw [hc]
  simp

lemma negBranchTicks_num_one (mn mx nm : ℝ) : negBranchTicks 10 mn mx nm 1 = [] := by
  unfold negBranchTicks
  rw [if_neg (by norm_num : ¬ (1 : ℝ) < 1)]

lemma tickLE_pair : tickLE 10 ((1 : ℝ), (0 : ℝ)) ((1 : ℝ), (1 : ℝ)) := by
  unfold tickLE decode
  dsimp only
  rw [Real.rpow_zero, Real.rpow_one]
  norm_num

lemma sort_pair : List.insertionSort (tickLE 10) [((1 : ℝ), (0 : ℝ)), ((1 : ℝ), (1 : ℝ))] =
    [((1 : ℝ), (0 : ℝ)), ((1 : ℝ), (1 : ℝ))] := by
  simp only [List.insertionSort, List.orderedInsert]
  rw [if_pos tickLE_pair]

/-- Evaluation of the major-tick builder at the degenerate raw extent
`(2, 2)` with interval 1: the output is the two aligned endpoint ticks. -/
lemma buildMajorTicks_two_two :
    buildMajorTicks 10 nuRound (2, 2) 1 = [((1 : ℝ), (0 : ℝ)), ((1 : ℝ), (1 : ℝ))] := by
  have hA : fuzzyCompare (Real.logb 10 2) (((0 : ℤ)) : ℝ) 1 = 1 :=
    fuzzyCompare_pos (by rw [eps_one]; push_cast; linarith [logb_two_gt])
  have hB : fuzzyCompare (Real.logb 10 2) (((1 : ℤ)) : ℝ) 1 = -1 :=
    fuzzyCompare_neg (by rw [eps_one]; push_cast; linarith [logb_two_lt])
  unfold buildMajorTicks
  dsimp only
  rw [align_two_two]
  dsimp only
  rw [qwtLog_two, floor_logb_two, ceil_logb_two]
  rw [getWdt_one_ten]
  dsimp only
  rw [show ((1 : ℝ)/1 = 1) by norm_num, show ((0 : ℝ)/1 = 0) by norm_num,
    nuRound_one, nuRound_zero]
  have hcap2 : capTen ((1 : ℝ) + 1) = 2 := by
    unfold capTen
    rw [if_neg (by norm_num)]
    norm_num
  have hcap1 : capTen ((0 : ℝ) + 1) = 1 := by
    unfold capTen
    rw [if_neg (by norm_num)]
    norm_num
  rw [hcap2, hcap1]
  rw [Real.sign_of_pos (by norm_num : (0:ℝ) < 1), Real.sign_of_pos (by norm_num : (0:ℝ) < 10)]
  simp only [mathLog_eq_logb]
  rw [Real.logb_one, Real.logb_self_eq_one (by norm_num : (1:ℝ) < 10)]
  rw [if_neg (show ¬ (1 : ℝ) * 10 < 0 by norm_num)]
  rw [if_neg (show ¬ fuzzyCompare (Real.logb 10 2) (((0 : ℤ)) : ℝ) 1 = 0 by
    rw [hA]; norm_num)]
  rw [if_neg (show ¬ fuzzyCompare (Real.logb 10 2) (((1 : ℤ)) : ℝ) 1 = 0 by
    rw [hB]; norm_num)]
  rw [posBranchTicks_num_two, negBranchTicks_num_one]
  simp only [List.append_nil]
  exact sort_pair

/-- Counterexample to C3: at the raw extent `(2, 2)` with interval 1 the
builder's ticks decode to the base-power-aligned bounds 1 and 10, so no
tick decodes to the raw extent's own value 2 as the claim demands. -/
theorem buildMajorTicks_endpoint_counterexample :
    buildMajorTicks 10 nuRound (2, 2) 1 = [((1 : ℝ), (0 : ℝ)), ((1 : ℝ), (1 : ℝ))] ∧
    decode 10 ((1 : ℝ), (0 : ℝ)) = 1 ∧ decode 10 ((1 : ℝ), (1 : ℝ)) = 10 ∧
    (1 : ℝ) ≠ 2 ∧ (10 : ℝ) ≠ 2 := by
  refine ⟨buildMajorTicks_two_two, ?_, ?_, by norm_num, by norm_num⟩
  · unfold decode
    dsimp only
    rw [Real.rpow_zero]
    norm_num
  · unfold decode
    dsimp only
    rw [Real.rpow_one]
    norm_num

end SignLog
